import Mathlib

set_option maxRecDepth 8000

/-!
Shallow embedding of `src/storage_migration.py` (gumlet/cloudinary-to-s3).

Strings are modelled as Lean `String` (a wrapper around `List Char`, which in
this Lean version coincides with Python's sequence-of-characters view for the
ASCII data handled by the script).  Python library primitives used by the
script (`str.split`, `str.join`, `str.strip`, `str.lower`, the substring test
`in`, and the one regular expression passed to `re.split`) are embedded as
executable Lean functions below, and the script's own functions
(`filter_urls_base_on_folder_names`, `source_to_target_mapper`,
`migrate_data`, `migrate_cloudinary_resources`) are translated line by line
on top of them.  Network effects (cloudinary listing, `head_object`,
`session.get`, `put_object`, `input()`) are modelled as explicit oracles
passed in as function arguments, and the calls the code makes to them are
recorded as explicit event lists.
-/

namespace StorageMigration

/-- Python `s.split(sep)` for a one-character separator `sep`:
splits at every occurrence of `sep`; the result always has one more element
than the number of separators, so `"".split(",") = [""]` and
`",".split(",") = ["", ""]`. -/
def pySplit (sep : Char) : List Char → List (List Char)
  | [] => [[]]
  | c :: rest =>
    match pySplit sep rest with
    | [] => [[]]
    | h :: t => if c = sep then [] :: h :: t else (c :: h) :: t

/-- Python `sep.join(parts)` for a one-character separator. -/
def pyJoin (sep : Char) : List (List Char) → List Char
  | [] => []
  | [p] => p
  | p :: ps => p ++ sep :: pyJoin sep ps

/-- Remove the longest run of characters satisfying `p` from both ends of a
list (the character-list core of Python `str.strip`). -/
def pyStripChars (p : Char → Bool) (l : List Char) : List Char :=
  ((l.dropWhile p).reverse.dropWhile p).reverse

/-- Python `s.strip()` (no arguments): trim whitespace from both ends
(`Char.isWhitespace` covers the whitespace occurring in CLI inputs). -/
def pyStripWS (s : String) : String :=
  String.mk (pyStripChars Char.isWhitespace s.data)

/-- Python `s.strip("/")`: trim `'/'` characters from both ends. -/
def pyStripSlash (s : String) : String :=
  String.mk (pyStripChars (fun c => c = '/') s.data)

/-- Python `s.lower()` (the script only compares ASCII answers). -/
def pyLower (s : String) : String :=
  String.mk (s.data.map Char.toLower)

/-- Regex word character (the class `\w`), as used by the `\b` anchors in the
pattern at line 122 of the source.  (Python's `\w` on `str` is unicode-aware;
this models its behaviour on the ASCII alphabet of cloudinary URLs.) -/
def isWordChar (c : Char) : Bool := c.isAlphanum || c = '_'

/-- `wordEnd l` is true when the list ends in a word character.  For a prefix
`l` of the subject string, `wordEnd l = false` says the regex anchor `\b`
holds just after `l` whenever the next character is a word character (which
is the case for all three alternatives `image`/`video`/`raw`). -/
def wordEnd (l : List Char) : Bool :=
  match l.getLast? with
  | some c => isWordChar c
  | none => false

/-- Length consumed by the alternation `\bimage\b|\bvideo\b|\braw\b` at the
head of `t` (the leading `\b` is handled by `wordEnd` on the prefix; the
trailing `\b` is automatic because the pattern continues with `/`, a
non-word character, right after the final word character of the
alternative). -/
def rtLen (t : List Char) : Option Nat :=
  if "image".data.isPrefixOf t then some 5
  else if "video".data.isPrefixOf t then some 5
  else if "raw".data.isPrefixOf t then some 3
  else none

/-- Length of a match of the pattern
`(\bimage\b|\bvideo\b|\braw\b)/upload/v[0-9]+/` at the head of `t`
(boundary condition on the preceding character excluded; see `wordEnd`).
`[0-9]+` is greedy, and since backtracking it can never expose the
required `/`, the greedy take is exact. -/
def matchLen (t : List Char) : Option Nat :=
  match rtLen t with
  | none => none
  | some k =>
    let r1 := t.drop k
    if "/upload/v".data.isPrefixOf r1 then
      let r2 := r1.drop 9
      let d := (r2.takeWhile Char.isDigit).length
      if d = 0 then none
      else
        match r2.drop d with
        | '/' :: _ => some (k + 9 + d + 1)
        | _ => none
    else none

/-- Left-to-right, non-overlapping scan of `re.split`, keeping only what is
needed for `[-1]`: the remainder of the string after the end of the last
match.  `skip` counts characters of the current match still to be consumed
(no new match may begin inside them), `pw` says whether the previous
character is a word character (for the `\b` anchor), and `best` is the
remainder after the last match found so far (`none` if no match yet). -/
def scanS (skip : Nat) (pw : Bool) (best : Option (List Char)) :
    List Char → Option (List Char)
  | [] => best
  | c :: rest =>
    match skip with
    | k + 1 => scanS k (isWordChar c) best rest
    | 0 =>
      if pw then scanS 0 (isWordChar c) best rest
      else
        match matchLen (c :: rest) with
        | some n => scanS (n - 1) (isWordChar c) (some ((c :: rest).drop n)) rest
        | none => scanS 0 (isWordChar c) best rest

/-- Line 122 of the source:
`re.split(r"(\bimage\b|\bvideo\b|\braw\b)/upload/v[0-9]+/", url)[-1]`.
The last element of the split is the remainder after the last match of the
scan, or the whole string when the pattern matches nowhere. -/
def pySplitLastElem (url : String) : String :=
  match scanS 0 false none url.data with
  | some t => String.mk t
  | none => url

/-- Python's substring test `needle in hay` on strings: true when `needle`
occurs contiguously anywhere in `hay` (in particular `"" in hay` is true). -/
def pyIn (needle : List Char) : List Char → Bool
  | [] => needle.isPrefixOf []
  | c :: rest => needle.isPrefixOf (c :: rest) || pyIn needle rest

/-- Lines 108-116: `filter_urls_base_on_folder_names(source_buckets, url_list)`
as a function of a comma-separated string of folder names.  The double loop
`for sb in source_buckets: for url in url_list: ...` is the flattened map
below; `list(set(filtered_urls))` returns the distinct collected URLs in an
unspecified order, modelled by `List.dedup` (which has exactly the
membership and no-duplicate behaviour of Python's set round-trip). -/
def filter_urls_base_on_folder_names (source_buckets : String)
    (url_list : List String) : List String :=
  let sbs := (pySplit ',' source_buckets.data).map (fun l => pyStripWS (String.mk l))
  ((sbs.map (fun sb => url_list.filter (fun url => pyIn sb.data url.data))).flatten).dedup

/-- Lines 118-128: `source_to_target_mapper(url_list, keep_same_structure,
parent_path)`.  The `[url, url_split]` pairs appended in source order become
a mapped list.  `url.split("/")[3:]` joined with `/` is the
keep-same-structure branch; `if parent_path:` is Python string truthiness,
i.e. `parent_path ≠ ""`. -/
def source_to_target_mapper (url_list : List String) (keep_same_structure : Bool)
    (parent_path : String) : List (String × String) :=
  url_list.map (fun url =>
    let url_split :=
      if !keep_same_structure then pySplitLastElem url
      else String.mk (pyJoin '/' ((pySplit '/' url.data).drop 3))
    let url_split :=
      if parent_path ≠ "" then pyStripSlash parent_path ++ "/" ++ url_split
      else url_split
    (url, url_split))

/-- Second component of a `TransferResult`: either the original mapping
`data = (source, target)` (returned on skip and on every error) or the
`put_object` response (returned on a successful upload). -/
inductive Payload where
  | mapping (m : String × String)
  | resp (r : String)
  deriving DecidableEq, Repr

/-- Network calls issued by one `migrate_data` invocation. -/
inductive S3Event where
  | head (key : String)
  | getUrl (url : String)
  | put (key : String)
  deriving DecidableEq, Repr

/-- Oracles for the destination store and the download session: each call
either returns a value (`Except.ok`) or raises (`Except.error`).  A
successful `head_object` returns the (non-empty, hence truthy) metadata
dict, modelled by the `String` carried by `ok`. -/
structure S3Env where
  head_object : String → Except String String
  get : String → Except String String
  put_object : String → String → Except String String

/-- Lines 139-168: `migrate_data(data, s3_client, s3_bucket_name, session)`,
with `args.resuming_migration` passed explicitly as `resuming`.  Returns the
`(failed, payload)` pair the Python function returns, together with the list
of network calls it issued, in order. -/
def migrate_data (env : S3Env) (resuming : Bool) (data : String × String) :
    (Bool × Payload) × List S3Event :=
  let source := data.1
  let target := data.2
  if resuming then
    match env.head_object target with
    | Except.ok _ =>
      -- head_object returned: `s3_object_meta` is truthy, `return False, data`
      ((false, Payload.mapping data), [S3Event.head target])
    | Except.error _ =>
      -- `except Exception: s3_object_meta = None`, fall through to fetch/upload
      match env.get source with
      | Except.error _ => ((true, Payload.mapping data),
          [S3Event.head target, S3Event.getUrl source])
      | Except.ok content =>
        match env.put_object target content with
        | Except.error _ => ((true, Payload.mapping data),
            [S3Event.head target, S3Event.getUrl source, S3Event.put target])
        | Except.ok r => ((false, Payload.resp r),
            [S3Event.head target, S3Event.getUrl source, S3Event.put target])
  else
    match env.get source with
    | Except.error _ => ((true, Payload.mapping data), [S3Event.getUrl source])
    | Except.ok content =>
      match env.put_object target content with
      | Except.error _ => ((true, Payload.mapping data),
          [S3Event.getUrl source, S3Event.put target])
      | Except.ok r => ((false, Payload.resp r),
          [S3Event.getUrl source, S3Event.put target])

/-- Line 77: `{executor.submit(migrate_data, data, s3, args.s3_bucket_name,
sess): data for data in source_to_target_mapper_list}` — every mapping of
the batch is submitted, and each worker's outcome is a function of the
oracles and its own mapping only. -/
def submitBatch (env : S3Env) (resuming : Bool)
    (mappings : List (String × String)) : List ((Bool × Payload) × List S3Event) :=
  mappings.map (migrate_data env resuming)

/-- Lines 78-96 of the source, for one batch, given the workers' results in
completion order (`as_completed` order).  The loop body at lines 79-80 only
advances the progress bar; the `try: err, resp = future.result()` block at
lines 81-88 is indented OUTSIDE the loop, so after the loop it reads only
the loop variable's final value — the LAST completed future.  Returns
`(failed_count, results)` as of line 92. -/
def batchTally (completed : List (Bool × Payload)) : Nat × List Payload :=
  match completed.getLast? with
  | some (err, resp) => if err then (1, [resp]) else (0, [])
  | none => (0, [])

/-- One page returned by `cloudinary.api.resources`: the URLs of its
`resources` entries and whether the response carries a `next_cursor` key. -/
structure Page where
  urls : List String
  hasNext : Bool

/-- The run-wide argparse values the orchestrator reads (the credential and
bucket-name strings only flow into the oracles and the printed sample, so
they are not part of the model). -/
structure RunCfg where
  resource_types : String
  source_buckets : String
  keep_cloud_name_in_path : Bool
  target_parent_path : String

/-- How the `while` loop over one resource type's pages ended:
`done` (pagination exhausted or an empty page), `declined` (the operator's
answer to the line-65 prompt was not "yes", executing `break`), or
`crashed` (an exception escaped the loop body — in particular the
`AttributeError` raised when line 51 passes the list `source_buckets` to
`filter_urls_base_on_folder_names`, whose first statement calls
`.split(",")` on it). -/
inductive PageOutcome where
  | done
  | declined
  | crashed
  deriving DecidableEq, Repr

/-- Lines 47-102: the `while resources and resources["resources"]:` loop for
one resource type, over the page sequence the listing API would yield.
Returns the global `batch_index` after the loop, the mappings submitted to
`migrate_data` (line 77) in submission order, and how the loop ended.
`bi` is the incoming global `batch_index` (line 48 increments it), and the
confirmation prompt fires only when it becomes 1 (line 59). -/
def processPages (cfg : RunCfg) (confirm : String) :
    List Page → Nat → Nat × List (String × String) × PageOutcome
  | [], bi => (bi, [], PageOutcome.done)
  | p :: rest, bi =>
    if p.urls = [] then (bi, [], PageOutcome.done)
    else
      let bi' := bi + 1
      -- line 50: `if args.source_buckets:` — Python truthiness of the string
      if cfg.source_buckets ≠ "" then
        -- line 51 raises AttributeError before any mapping is built
        (bi', [], PageOutcome.crashed)
      else
        let mappings := source_to_target_mapper p.urls
          cfg.keep_cloud_name_in_path cfg.target_parent_path
        if bi' = 1 ∧ pyLower confirm ≠ "yes" then
          -- lines 59-67: sample shown, operator declined, `break`
          (bi', [], PageOutcome.declined)
        else
          -- lines 70-96 submit `mappings` and tally; lines 99-102 paginate
          if p.hasNext then
            let (bi2, ms, out) := processPages cfg confirm rest bi'
            (bi2, mappings ++ ms, out)
          else
            (bi', mappings, PageOutcome.done)

/-- Lines 43-102: the `for rs_type in resource_types:` loop.  Each type's
name is stripped (line 44) before it is used to list pages.  A `crashed`
page loop propagates its exception out of the `for`, ending the whole run
(it is caught by the handler at line 104); `declined` and `done` just move
on to the next type.  Returns all mappings submitted to `migrate_data`
during the run and whether the run ended in the line-104 handler. -/
def processTypes (cfg : RunCfg) (confirm : String) (pages : String → List Page) :
    List String → Nat → List (String × String) × Bool
  | [], _ => ([], false)
  | t :: ts, bi =>
    let (bi2, ms, out) := processPages cfg confirm (pages (pyStripWS t)) bi
    match out with
    | PageOutcome.crashed => (ms, true)
    | _ =>
      let (ms2, crashed) := processTypes cfg confirm pages ts bi2
      (ms ++ ms2, crashed)

/-- Lines 31-106: `migrate_cloudinary_resources(resource_types, s3)`.
`resource_types.split(",")` at line 34 produces the type list; `confirm` is
the operator's answer to the single `input()` prompt; `pages` is the
listing oracle (pages of each resource type, in cursor order).  The result
is the list of all mappings submitted to `migrate_data` over the whole run,
in submission order, and whether the run ended in the line-104 exception
handler. -/
def migrate_cloudinary_resources (cfg : RunCfg) (pages : String → List Page)
    (confirm : String) : List (String × String) × Bool :=
  processTypes cfg confirm pages
    ((pySplit ',' cfg.resource_types.data).map String.mk) 0

/-- Whether the listing for one resource type starts with a page that enters
the `while` body at line 47 (a non-empty `resources["resources"]`). -/
def firstBatchNonempty (pl : List Page) : Bool :=
  match pl with
  | [] => false
  | p :: _ => decide (p.urls ≠ [])

/-- The character-level reading of "the target key is the remainder of the
URL after the last occurrence of the pattern
`(image|video|raw)/upload/v<digits>/`": an occurrence at a split point
`url = x ++ y` means the character before `y` is not a word character
(`wordEnd x = false`, the `\b` anchor) and the pattern matches at the head
of `y` (`matchLen y` is some length).  Either no occurrence exists and `k`
is the whole URL, or some occurrence ends exactly where `k` starts and no
occurrence begins at or after that point. -/
def lastStripSpec (url k : String) : Prop :=
  (k = url ∧ ∀ c d, url.data = c ++ d → wordEnd c = false → matchLen d = none) ∨
  (∃ a m, url.data = a ++ m ++ k.data ∧ wordEnd a = false ∧
    matchLen (m ++ k.data) = some m.length ∧
    ∀ c d, k.data = c ++ d → wordEnd (a ++ m ++ c) = false → matchLen d = none)

/-- No-occurrence property for the unskipped region of a suffix `t` of the
subject string: for every split `t = c ++ d` at or after the skip horizon,
there is no match of the pattern at the start of `d` (`acc` is the already
consumed prefix, so the full string is `acc ++ t`). -/
def NoMatchIn (acc : List Char) (skip : Nat) (t : List Char) : Prop :=
  ∀ c d, t = c ++ d → skip ≤ c.length → wordEnd (acc ++ c) = false → matchLen d = none

/-- Sample URL in which the regex pattern occurs twice. -/
def doubledUrl : String := "https://h/demo/image/upload/v1/image/upload/v2/a.jpg"

/-- Listing oracle used by concrete witnesses: one single-page batch for
`image` and one for `video`. -/
def samplePages : String → List Page := fun t =>
  if t = "image" then [⟨["https://h/demo/image/upload/v1/a.jpg"], false⟩]
  else if t = "video" then [⟨["https://h/demo/video/upload/v7/b.mp4"], false⟩]
  else []

/-- Destination oracle where the metadata probe always succeeds. -/
def envHeadOk : S3Env :=
  ⟨fun _ => Except.ok "meta", fun _ => Except.error "unreachable",
   fun _ _ => Except.error "unreachable"⟩

/-- Destination oracle where the metadata probe always raises, the fetch of
`https://h/a` raises, and every other fetch and every upload succeeds. -/
def envFailA : S3Env :=
  ⟨fun _ => Except.error "404",
   fun u => if u = "https://h/a" then Except.error "timeout" else Except.ok "bytes",
   fun _ _ => Except.ok "stored"⟩

/-! ## Helper lemmas -/

theorem isPrefixOf_eq (p : List Char) : ∀ l : List Char,
    p.isPrefixOf l = true ↔ ∃ t, p ++ t = l := by
  induction p with
  | nil => intro l; simp [List.isPrefixOf]
  | cons c p ih =>
    intro l
    cases l with
    | nil => simp [List.isPrefixOf]
    | cons d l =>
      simp only [List.isPrefixOf, Bool.and_eq_true, beq_iff_eq, ih, List.cons_append,
        List.cons.injEq]
      constructor
      · rintro ⟨rfl, t, rfl⟩; exact ⟨t, rfl, rfl⟩
      · rintro ⟨t, rfl, rfl⟩; exact ⟨rfl, t, rfl⟩

theorem isPrefixOf_length (p l : List Char) (h : p.isPrefixOf l = true) :
    p.length ≤ l.length := by
  obtain ⟨t, rfl⟩ := (isPrefixOf_eq p l).mp h
  simp

theorem pyIn_iff (n : List Char) : ∀ h : List Char,
    pyIn n h = true ↔ ∃ a b, h = a ++ n ++ b := by
  intro h
  induction h with
  | nil =>
    simp only [pyIn, isPrefixOf_eq]
    constructor
    · rintro ⟨t, ht⟩
      rcases List.append_eq_nil.mp ht with ⟨rfl, rfl⟩
      exact ⟨[], [], rfl⟩
    · rintro ⟨a, b, hab⟩
      rcases List.append_eq_nil.mp (List.append_eq_nil.mp hab.symm).1 with ⟨rfl, rfl⟩
      rcases List.append_eq_nil.mp hab.symm with ⟨-, rfl⟩
      exact ⟨[], rfl⟩
  | cons c r ih =>
    simp only [pyIn, Bool.or_eq_true, isPrefixOf_eq, ih]
    constructor
    · rintro (⟨t, ht⟩ | ⟨a, b, rfl⟩)
      · exact ⟨[], t, by simp [ht]⟩
      · exact ⟨c :: a, b, by simp⟩
    · rintro ⟨a, b, hab⟩
      cases a with
      | nil => exact Or.inl ⟨b, by simpa using hab.symm⟩
      | cons a0 a' =>
        rcases (List.cons.injEq _ _ _ _).mp hab with ⟨-, rfl⟩
        exact Or.inr ⟨a', b, rfl⟩

theorem head?_dropWhile (p : Char → Bool) : ∀ (l : List Char) (c : Char),
    (l.dropWhile p).head? = some c → p c = false := by
  intro l
  induction l with
  | nil => intro c h; simp [List.dropWhile] at h
  | cons d l ih =>
    intro c h
    rw [List.dropWhile_cons] at h
    by_cases hd : p d = true
    · exact ih c (by simpa [hd] using h)
    · have hd' : p d = false := Bool.eq_false_iff.mpr hd
      rw [hd'] at h
      simp at h
      rw [← h]
      exact hd'

theorem dropWhile_ne_nil_getLast? (p : Char → Bool) : ∀ l : List Char,
    l.dropWhile p ≠ [] → (l.dropWhile p).getLast? = l.getLast? := by
  intro l
  induction l with
  | nil => intro h; simp [List.dropWhile] at h
  | cons d l ih =>
    intro h
    rw [List.dropWhile_cons] at h ⊢
    by_cases hd : p d = true
    · simp only [hd, if_true] at h ⊢
      rw [ih h]
      cases l with
      | nil => simp [List.dropWhile] at h
      | cons e l => simp [List.getLast?_cons_cons]
    · simp [hd]

theorem pyStripChars_getLast? (p : Char → Bool) (l : List Char) (c : Char)
    (h : (pyStripChars p l).getLast? = some c) : p c = false := by
  unfold pyStripChars at h
  rw [List.getLast?_reverse] at h
  exact head?_dropWhile p _ c h

theorem pyStripChars_head? (p : Char → Bool) (l : List Char) (c : Char)
    (h : (pyStripChars p l).head? = some c) : p c = false := by
  unfold pyStripChars at h
  rw [List.head?_reverse] at h
  have hne : (l.dropWhile p).reverse.dropWhile p ≠ [] := by
    intro hnil; rw [hnil] at h; simp at h
  rw [dropWhile_ne_nil_getLast? p _ hne, List.getLast?_reverse] at h
  exact head?_dropWhile p _ c h

theorem pySplit_ne_nil (sep : Char) : ∀ l : List Char, pySplit sep l ≠ [] := by
  intro l
  induction l with
  | nil => simp [pySplit]
  | cons c rest ih =>
    cases hp : pySplit sep rest with
    | nil => exact absurd hp ih
    | cons h t =>
      simp only [pySplit, hp]
      split <;> simp

theorem pySplit_append (sep : Char) : ∀ (s1 r : List Char), sep ∉ s1 →
    pySplit sep (s1 ++ sep :: r) = s1 :: pySplit sep r := by
  intro s1
  induction s1 with
  | nil =>
    intro r _
    cases hp : pySplit sep r with
    | nil => exact absurd hp (pySplit_ne_nil sep r)
    | cons h t => simp [pySplit, hp]
  | cons c s1 ih =>
    intro r hmem
    have hc : c ≠ sep := fun hce => hmem (by simp [hce])
    have hrec := ih r (fun hin => hmem (List.mem_cons_of_mem c hin))
    simp only [List.cons_append, pySplit, List.append_eq]
    rw [hrec]
    simp [hc]

theorem pySplit_no_sep (sep : Char) : ∀ l : List Char, sep ∉ l →
    pySplit sep l = [l] := by
  intro l
  induction l with
  | nil => intro _; rfl
  | cons c rest ih =>
    intro hmem
    have hc : c ≠ sep := fun hce => hmem (by simp [hce])
    have hrec := ih (fun hin => hmem (List.mem_cons_of_mem c hin))
    simp only [pySplit]
    rw [hrec]
    simp [hc]

theorem pyJoin_pySplit (sep : Char) : ∀ r : List Char,
    pyJoin sep (pySplit sep r) = r := by
  intro r
  induction r with
  | nil => rfl
  | cons c rest ih =>
    cases hp : pySplit sep rest with
    | nil => exact absurd hp (pySplit_ne_nil sep rest)
    | cons h t =>
      rw [hp] at ih
      simp only [pySplit, hp]
      by_cases hc : c = sep
      · subst hc
        simpa [pyJoin] using ih
      · simp only [hc, if_false]
        cases t with
        | nil => simpa [pyJoin] using ih
        | cons t0 t1 =>
          simp only [pyJoin] at ih ⊢
          simp [← ih]

theorem matchLen_nil : matchLen [] = none := by decide

theorem wordEnd_nil : wordEnd [] = false := rfl

theorem wordEnd_concat (l : List Char) (c : Char) :
    wordEnd (l ++ [c]) = isWordChar c := by
  unfold wordEnd
  rw [List.getLast?_concat]

theorem rtLen_le (t : List Char) (k : Nat) (h : rtLen t = some k) : k ≤ t.length := by
  unfold rtLen at h
  by_cases h1 : "image".data.isPrefixOf t = true
  · rw [if_pos h1] at h
    obtain rfl : (5 : Nat) = k := Option.some.inj h
    have hle := isPrefixOf_length _ _ h1
    have h5 : ("image".data).length = 5 := by decide
    omega
  · rw [if_neg h1] at h
    by_cases h2 : "video".data.isPrefixOf t = true
    · rw [if_pos h2] at h
      obtain rfl : (5 : Nat) = k := Option.some.inj h
      have hle := isPrefixOf_length _ _ h2
      have h5 : ("video".data).length = 5 := by decide
      omega
    · rw [if_neg h2] at h
      by_cases h3 : "raw".data.isPrefixOf t = true
      · rw [if_pos h3] at h
        obtain rfl : (3 : Nat) = k := Option.some.inj h
        have hle := isPrefixOf_length _ _ h3
        have h3l : ("raw".data).length = 3 := by decide
        omega
      · rw [if_neg h3] at h; cases h

theorem matchLen_bounds (t : List Char) (n : Nat) (h : matchLen t = some n) :
    1 ≤ n ∧ n ≤ t.length := by
  unfold matchLen at h
  cases hr : rtLen t with
  | none => rw [hr] at h; cases h
  | some k =>
    rw [hr] at h
    dsimp only at h
    by_cases hp : "/upload/v".data.isPrefixOf (t.drop k) = true
    · rw [if_pos hp] at h
      by_cases hd0 : ((((t.drop k).drop 9).takeWhile Char.isDigit).length) = 0
      · rw [if_pos hd0] at h; cases h
      · rw [if_neg hd0] at h
        split at h
        · rename_i tl heq
          have hn := Option.some.inj h
          have hk := rtLen_le t k hr
          have h9 := isPrefixOf_length _ _ hp
          have h9' : ("/upload/v".data).length = 9 := by decide
          have hlen := congrArg List.length heq
          rw [List.length_drop] at hlen
          simp only [List.length_cons, List.length_drop] at hlen hk h9 ⊢
          omega
        · cases h
    · rw [if_neg hp] at h; cases h

theorem noMatchIn_step (acc : List Char) (c : Char) (k : Nat) (rest : List Char)
    (h : NoMatchIn (acc ++ [c]) k rest) :
    ∀ C D, c :: rest = C ++ D → k + 1 ≤ C.length →
      wordEnd (acc ++ C) = false → matchLen D = none := by
  intro C D hCD hlen hw
  cases C with
  | nil => simp only [List.length_nil] at hlen; omega
  | cons c0 C' =>
    rw [List.cons_append] at hCD
    injection hCD with h1 h2
    subst h1
    rw [List.append_cons] at hw
    have hlen' : k ≤ C'.length := by
      simp only [List.length_cons] at hlen
      omega
    exact h C' D h2 hlen' hw

theorem scanS_isSome_of_best : ∀ (t : List Char) (skip : Nat) (pw : Bool) (b : List Char),
    scanS skip pw (some b) t ≠ none := by
  intro t
  induction t with
  | nil => intro skip pw b h; simp [scanS] at h
  | cons c rest ih =>
    intro skip pw b h
    cases skip with
    | succ k =>
      simp only [scanS] at h
      exact ih k (isWordChar c) b h
    | zero =>
      cases pw with
      | true =>
        simp only [scanS, if_true] at h
        exact ih 0 (isWordChar c) b h
      | false =>
        simp only [scanS, Bool.false_eq_true, if_false] at h
        cases hm : matchLen (c :: rest) with
        | some n => rw [hm] at h; exact ih (n - 1) (isWordChar c) _ h
        | none => rw [hm] at h; exact ih 0 (isWordChar c) b h

theorem scanS_none_correct : ∀ (t acc : List Char) (skip : Nat) (best : Option (List Char)),
    scanS skip (wordEnd acc) best t = none →
    best = none ∧ NoMatchIn acc skip t := by
  intro t
  induction t with
  | nil =>
    intro acc skip best h
    refine ⟨h, ?_⟩
    intro C D hCD _ _
    obtain ⟨-, rfl⟩ := List.append_eq_nil.mp hCD.symm
    exact matchLen_nil
  | cons c rest ih =>
    intro acc skip best h
    cases skip with
    | succ k =>
      simp only [scanS] at h
      rw [(wordEnd_concat acc c).symm] at h
      obtain ⟨hb, hn⟩ := ih (acc ++ [c]) k best h
      refine ⟨hb, ?_⟩
      intro C D hCD hlen hw
      exact noMatchIn_step acc c k rest hn C D hCD hlen hw
    | zero =>
      cases hW : wordEnd acc with
      | true =>
        rw [hW] at h
        simp only [scanS, if_true] at h
        rw [(wordEnd_concat acc c).symm] at h
        obtain ⟨hb, hn⟩ := ih (acc ++ [c]) 0 best h
        refine ⟨hb, ?_⟩
        intro C D hCD hlen hw
        cases C with
        | nil =>
          rw [List.append_nil] at hw
          rw [hW] at hw
          cases hw
        | cons c0 C' =>
          exact noMatchIn_step acc c 0 rest hn (c0 :: C') D hCD (by simp only [List.length_cons]; omega) hw
      | false =>
        rw [hW] at h
        simp only [scanS, Bool.false_eq_true, if_false] at h
        cases hm : matchLen (c :: rest) with
        | some n =>
          rw [hm] at h
          dsimp only at h
          exact absurd h (scanS_isSome_of_best rest (n - 1) (isWordChar c) _)
        | none =>
          rw [hm] at h
          rw [(wordEnd_concat acc c).symm] at h
          obtain ⟨hb, hn⟩ := ih (acc ++ [c]) 0 best h
          refine ⟨hb, ?_⟩
          intro C D hCD hlen hw
          cases C with
          | nil =>
            obtain rfl : D = c :: rest := by simpa using hCD.symm
            exact hm
          | cons c0 C' =>
            exact noMatchIn_step acc c 0 rest hn (c0 :: C') D hCD (by simp only [List.length_cons]; omega) hw

theorem scanS_some_correct :
    ∀ (t acc : List Char) (skip : Nat) (best : Option (List Char)) (b : List Char),
    scanS skip (wordEnd acc) best t = some b →
    (best = some b ∧ NoMatchIn acc skip t) ∨
    (∃ a m, acc ++ t = a ++ m ++ b ∧ wordEnd a = false ∧
      matchLen (m ++ b) = some m.length ∧ NoMatchIn (a ++ m) 0 b) := by
  intro t
  induction t with
  | nil =>
    intro acc skip best b h
    left
    refine ⟨h, ?_⟩
    intro C D hCD _ _
    obtain ⟨-, rfl⟩ := List.append_eq_nil.mp hCD.symm
    exact matchLen_nil
  | cons c rest ih =>
    intro acc skip best b h
    cases skip with
    | succ k =>
      simp only [scanS] at h
      rw [(wordEnd_concat acc c).symm] at h
      rcases ih (acc ++ [c]) k best b h with ⟨hb, hn⟩ | ⟨a, m, heq, hwa, hml, hnm⟩
      · left
        refine ⟨hb, ?_⟩
        intro C D hCD hlen hw
        exact noMatchIn_step acc c k rest hn C D hCD hlen hw
      · right
        exact ⟨a, m, by rw [List.append_cons]; exact heq, hwa, hml, hnm⟩
    | zero =>
      cases hW : wordEnd acc with
      | true =>
        rw [hW] at h
        simp only [scanS, if_true] at h
        rw [(wordEnd_concat acc c).symm] at h
        rcases ih (acc ++ [c]) 0 best b h with ⟨hb, hn⟩ | ⟨a, m, heq, hwa, hml, hnm⟩
        · left
          refine ⟨hb, ?_⟩
          intro C D hCD hlen hw
          cases C with
          | nil =>
            rw [List.append_nil] at hw
            rw [hW] at hw
            cases hw
          | cons c0 C' =>
            exact noMatchIn_step acc c 0 rest hn (c0 :: C') D hCD (by simp only [List.length_cons]; omega) hw
        · right
          exact ⟨a, m, by rw [List.append_cons]; exact heq, hwa, hml, hnm⟩
      | false =>
        rw [hW] at h
        simp only [scanS, Bool.false_eq_true, if_false] at h
        cases hm : matchLen (c :: rest) with
        | none =>
          rw [hm] at h
          rw [(wordEnd_concat acc c).symm] at h
          rcases ih (acc ++ [c]) 0 best b h with ⟨hb, hn⟩ | ⟨a, m, heq, hwa, hml, hnm⟩
          · left
            refine ⟨hb, ?_⟩
            intro C D hCD hlen hw
            cases C with
            | nil =>
              obtain rfl : D = c :: rest := by simpa using hCD.symm
              exact hm
            | cons c0 C' =>
              exact noMatchIn_step acc c 0 rest hn (c0 :: C') D hCD (by simp only [List.length_cons]; omega) hw
          · right
            exact ⟨a, m, by rw [List.append_cons]; exact heq, hwa, hml, hnm⟩
        | some n =>
          obtain ⟨h1n, hnle⟩ := matchLen_bounds _ _ hm
          obtain ⟨n', rfl⟩ : ∃ n', n = n' + 1 := ⟨n - 1, by omega⟩
          rw [hm] at h
          dsimp only at h
          have hdrop : (c :: rest).drop (n' + 1) = rest.drop n' := rfl
          rw [hdrop] at h
          have hskip : n' + 1 - 1 = n' := by omega
          rw [hskip] at h
          rw [(wordEnd_concat acc c).symm] at h
          have hn'le : n' ≤ rest.length := by
            simp only [List.length_cons] at hnle
            omega
          have htake : (rest.take n').length = n' := by
            rw [List.length_take]
            omega
          rcases ih (acc ++ [c]) n' (some (rest.drop n')) b h with
            ⟨hb, hn⟩ | ⟨a, m, heq, hwa, hml, hnm⟩
          · -- the match found here is the last one: certify it
            obtain rfl : rest.drop n' = b := Option.some.inj hb
            right
            refine ⟨acc, c :: rest.take n', ?_, hW, ?_, ?_⟩
            · rw [List.append_assoc, List.cons_append, List.take_append_drop]
            · rw [List.cons_append, List.take_append_drop]
              rw [hm]
              simp [htake]
            · intro C D hCD hzero hw
              have hrest : rest = (rest.take n' ++ C) ++ D := by
                rw [List.append_assoc, ← hCD, List.take_append_drop]
              have hlen2 : n' ≤ (rest.take n' ++ C).length := by
                rw [List.length_append, htake]
                omega
              have hwEq : (acc ++ [c]) ++ (rest.take n' ++ C) =
                  (acc ++ (c :: rest.take n')) ++ C := by
                simp [List.append_assoc]
              have hw' : wordEnd ((acc ++ [c]) ++ (rest.take n' ++ C)) = false := by
                rw [hwEq]
                exact hw
              exact hn (rest.take n' ++ C) D hrest hlen2 hw'
          · right
            exact ⟨a, m, by rw [List.append_cons]; exact heq, hwa, hml, hnm⟩

theorem pySplitLastElem_spec (url : String) :
    lastStripSpec url (pySplitLastElem url) := by
  unfold pySplitLastElem
  cases hs : scanS 0 false none url.data with
  | none =>
    left
    have hcorr := scanS_none_correct url.data [] 0 none hs
    refine ⟨rfl, ?_⟩
    intro c d hcd hw
    exact hcorr.2 c d hcd (Nat.zero_le _) (by simpa using hw)
  | some b =>
    have hcorr := scanS_some_correct url.data [] 0 none b hs
    rcases hcorr with ⟨hb, -⟩ | ⟨a, m, heq, hwa, hml, hnm⟩
    · cases hb
    · right
      refine ⟨a, m, by simpa using heq, hwa, hml, ?_⟩
      intro c d hcd hw
      exact hnm c d hcd (Nat.zero_le _) hw

theorem processPages_decline (cfg : RunCfg) (confirm : String) (pl : List Page)
    (hc : pyLower confirm ≠ "yes") :
    (processPages cfg confirm pl 0).2.1 = [] := by
  cases pl with
  | nil => rfl
  | cons p rest =>
    simp only [processPages]
    by_cases hu : p.urls = []
    · rw [if_pos hu]
    · rw [if_neg hu]
      by_cases hb : cfg.source_buckets = ""
      · rw [if_neg (not_not_intro hb)]
        rw [if_pos ⟨trivial, hc⟩]
      · rw [if_pos hb]

theorem processTypes_single (cfg : RunCfg) (pages : String → List Page) (confirm : String)
    (hc : pyLower confirm ≠ "yes") (t : String) :
    (processTypes cfg confirm pages [t] 0).1 = [] := by
  simp only [processTypes]
  rcases hpp : processPages cfg confirm (pages (pyStripWS t)) 0 with ⟨bi2, ms, out⟩
  have hms : ms = [] := by
    have hd := processPages_decline cfg confirm (pages (pyStripWS t)) hc
    rw [hpp] at hd
    exact hd
  cases out <;> simp [hms, processTypes]

theorem processPages_crash (cfg : RunCfg) (confirm : String)
    (h : cfg.source_buckets ≠ "") (pl : List Page) (bi : Nat) :
    processPages cfg confirm pl bi =
      if firstBatchNonempty pl then (bi + 1, [], PageOutcome.crashed)
      else (bi, [], PageOutcome.done) := by
  cases pl with
  | nil => simp [processPages, firstBatchNonempty]
  | cons p rest =>
    simp only [processPages, firstBatchNonempty]
    by_cases hu : p.urls = []
    · rw [if_pos hu]
      simp [hu]
    · rw [if_neg hu, if_pos h]
      simp [hu]

theorem processTypes_crash (cfg : RunCfg) (confirm : String) (pages : String → List Page)
    (h : cfg.source_buckets ≠ "") :
    ∀ (ts : List String) (bi : Nat),
      processTypes cfg confirm pages ts bi =
        ([], ts.any (fun t => firstBatchNonempty (pages (pyStripWS t)))) := by
  intro ts
  induction ts with
  | nil => intro bi; rfl
  | cons t ts ih =>
    intro bi
    simp only [processTypes]
    rw [processPages_crash cfg confirm h (pages (pyStripWS t)) bi]
    cases hf : firstBatchNonempty (pages (pyStripWS t)) with
    | true => simp [hf]
    | false => simp [hf, ih bi]

/-! ## Claims -/

/-- C1: the claim says that for every batch `failed_count` equals the number
of workers that returned `failed = true` and that every failed mapping is
reported.  The code violates this: lines 81-88 sit outside the
`as_completed` loop, so only the last completed future is inspected.  On a
completion order whose first result failed and whose last result succeeded,
the code tallies `failed_count = 0` and reports nothing although one worker
failed; moreover the tally can never exceed 1 whatever the batch. -/
theorem claimC1_last_future_only :
    batchTally [(true, Payload.mapping ("https://h/a", "a")), (false, Payload.resp "stored")] =
      (0, []) ∧
    List.countP (fun r => r.1)
      [((true : Bool), Payload.mapping ("https://h/a", "a")), (false, Payload.resp "stored")] = 1 ∧
    ∀ completed : List (Bool × Payload), (batchTally completed).1 ≤ 1 := by
  refine ⟨rfl, rfl, ?_⟩
  intro completed
  unfold batchTally
  cases completed.getLast? with
  | none => simp
  | some pr =>
    rcases pr with ⟨err, resp⟩
    cases err <;> simp

/-- C2 counterexample: with resource types `"image,video"` and the answer
`"no"` to the first-batch prompt, the run still submits the video batch to
`migrate_data` — the `break` at line 67 only leaves the `while` loop of the
current resource type, so transfer calls are issued for the run. -/
theorem claimC2_counterexample :
    pyLower "no" ≠ "yes" ∧
    (migrate_cloudinary_resources ⟨"image,video", "", false, ""⟩ samplePages "no").1 =
      [("https://h/demo/video/upload/v7/b.mp4", "b.mp4")] ∧
    (migrate_cloudinary_resources ⟨"image,video", "", false, ""⟩ samplePages "no").1 ≠ [] := by
  refine ⟨by decide, by decide, by decide⟩

/-- C2 (amended): if the operator's answer to the first-batch prompt is
anything other than "yes" (case-insensitively), zero transfer calls are
issued for the resource type during whose first batch the prompt appeared
(the `break` skips the rest of its pages); resource types listed after it
are still migrated, without any further prompt.  In particular, when a
single resource type is requested, zero transfer calls are issued for the
entire run. -/
theorem claimC2_amended (cfg : RunCfg) (pages : String → List Page) (confirm : String)
    (hc : pyLower confirm ≠ "yes") :
    (∀ pl : List Page, (processPages cfg confirm pl 0).2.1 = []) ∧
    ((',' : Char) ∉ cfg.resource_types.data →
      (migrate_cloudinary_resources cfg pages confirm).1 = []) := by
  refine ⟨fun pl => processPages_decline cfg confirm pl hc, fun hs => ?_⟩
  unfold migrate_cloudinary_resources
  rw [pySplit_no_sep ',' cfg.resource_types.data hs]
  simp only [List.map_cons, List.map_nil]
  exact processTypes_single cfg pages confirm hc _

/-- C2 witness: a declined single-type run issues no transfer calls. -/
theorem claimC2_amended_witness :
    (migrate_cloudinary_resources ⟨"image", "", false, ""⟩ samplePages "no").1 = [] :=
  (claimC2_amended ⟨"image", "", false, ""⟩ samplePages "no" (by decide)).2 (by decide)

/-- C3 counterexample: in `doubledUrl` the pattern occurs twice.  The first
occurrence is the segment `image/upload/v1/` right after the prefix
`https://h/demo/` (conjuncts 1-4 certify it is a pattern match and that no
occurrence starts earlier), so stripping "up to and including the first
occurrence" would give the key `image/upload/v2/a.jpg`; the code instead
produces `a.jpg`, the remainder after the LAST occurrence. -/
theorem claimC3_counterexample :
    doubledUrl.data =
      "https://h/demo/".data ++ "image/upload/v1/".data ++ "image/upload/v2/a.jpg".data ∧
    wordEnd "https://h/demo/".data = false ∧
    matchLen ("image/upload/v1/".data ++ "image/upload/v2/a.jpg".data) =
      some ("image/upload/v1/".data).length ∧
    (∀ i : Nat, i < ("https://h/demo/".data).length →
      wordEnd (doubledUrl.data.take i) = false → matchLen (doubledUrl.data.drop i) = none) ∧
    source_to_target_mapper [doubledUrl] false "" ≠
      [(doubledUrl, "image/upload/v2/a.jpg")] ∧
    source_to_target_mapper [doubledUrl] false "" = [(doubledUrl, "a.jpg")] := by
  refine ⟨by decide, by decide, by decide, by decide, by decide, by decide⟩

/-- C3 (amended): with structure-preservation disabled the URL Mapper strips
the URL up to and including the LAST occurrence of an `image`, `video` or
`raw` segment followed by `/upload/v<digits>/` (the occurrences being those
of the left-to-right non-overlapping scan of `re.split`) and uses the
remainder as the target key; if no such segment exists anywhere, it falls
back to the full URL string; in particular the spec's example URL maps to
`samples/cat.jpg`.  `lastStripSpec` states the last-occurrence property. -/
theorem claimC3_amended (url : String) :
    source_to_target_mapper [url] false "" = [(url, pySplitLastElem url)] ∧
    lastStripSpec url (pySplitLastElem url) ∧
    pySplitLastElem "https://res.example.com/demo/image/upload/v123/samples/cat.jpg" =
      "samples/cat.jpg" := by
  exact ⟨rfl, pySplitLastElem_spec url, by decide⟩

/-- C3 witness: the amended property instantiated at the doubled URL. -/
theorem claimC3_amended_witness :
    source_to_target_mapper [doubledUrl] false "" = [(doubledUrl, pySplitLastElem doubledUrl)] ∧
    lastStripSpec doubledUrl (pySplitLastElem doubledUrl) ∧
    pySplitLastElem "https://res.example.com/demo/image/upload/v123/samples/cat.jpg" =
      "samples/cat.jpg" :=
  claimC3_amended doubledUrl

/-- C4: whenever a non-empty source-folder filter is configured
(`args.source_buckets` truthy), line 51 passes the already comma-split list
to `filter_urls_base_on_folder_names`, whose first statement calls
`.split(",")` on it and raises `AttributeError`; the exception is caught by
the run-level handler at line 104.  Hence no transfer call is ever issued
(`.1 = []`), and the run ends in the handler (`.2 = true`) exactly when
some requested resource type's first listed page is non-empty, i.e. when
some batch reaches the filtering step. -/
theorem claimC4_filter_crash (cfg : RunCfg) (pages : String → List Page) (confirm : String)
    (h : cfg.source_buckets ≠ "") :
    (migrate_cloudinary_resources cfg pages confirm).1 = [] ∧
    (migrate_cloudinary_resources cfg pages confirm).2 =
      ((pySplit ',' cfg.resource_types.data).map String.mk).any
        (fun t => firstBatchNonempty (pages (pyStripWS t))) := by
  unfold migrate_cloudinary_resources
  rw [processTypes_crash cfg confirm pages h]
  exact ⟨rfl, rfl⟩

/-- C4 witness: a run with a configured folder filter issues no transfer
calls and ends in the exception handler. -/
theorem claimC4_filter_crash_witness :
    (migrate_cloudinary_resources ⟨"image,video", "/samples", false, ""⟩ samplePages "yes").1 =
      [] ∧
    (migrate_cloudinary_resources ⟨"image,video", "/samples", false, ""⟩ samplePages "yes").2 =
      true := by
  have h := claimC4_filter_crash ⟨"image,video", "/samples", false, ""⟩ samplePages "yes"
    (by decide)
  exact ⟨h.1, by rw [h.2]; decide⟩

/-- C5: a fetch error for the `i`-th mapping of a batch is caught inside
`migrate_data` and returned as `(failed = true, the original mapping)`
after issuing only the failed GET; and every other mapping's outcome is the
independent `migrate_data` run on its own mapping — the batch dispatch at
line 77 submits every mapping regardless of any sibling's failure. -/
theorem claimC5_fetch_error_isolated (env : S3Env) (mappings : List (String × String))
    (i : Nat) (m : String × String) (e : String)
    (h1 : mappings[i]? = some m) (h2 : env.get m.1 = Except.error e) :
    (submitBatch env false mappings)[i]? =
      some ((true, Payload.mapping m), [S3Event.getUrl m.1]) ∧
    ∀ j : Nat, (submitBatch env false mappings)[j]? =
      Option.map (migrate_data env false) mappings[j]? := by
  constructor
  · rw [submitBatch, List.getElem?_map, h1]
    simp [migrate_data, h2]
  · intro j
    rw [submitBatch, List.getElem?_map]

/-- C5 witness: in a two-mapping batch whose first fetch raises, the first
worker reports the failure record and the second still uploads. -/
theorem claimC5_fetch_error_isolated_witness :
    (submitBatch envFailA false [("https://h/a", "a"), ("https://h/b", "b")])[0]? =
      some ((true, Payload.mapping ("https://h/a", "a")), [S3Event.getUrl "https://h/a"]) ∧
    (submitBatch envFailA false [("https://h/a", "a"), ("https://h/b", "b")])[1]? =
      some ((false, Payload.resp "stored"), [S3Event.getUrl "https://h/b", S3Event.put "b"]) := by
  refine ⟨(claimC5_fetch_error_isolated envFailA [("https://h/a", "a"), ("https://h/b", "b")]
    0 ("https://h/a", "a") "timeout" rfl rfl).1, by decide⟩

/-- C6: when resuming is enabled and the metadata probe finds an object at
the target key (`head_object` returns), `migrate_data` returns the
non-failed result `(False, data)` having issued only the HEAD call — zero
fetches and zero uploads. -/
theorem claimC6_resume_skip (env : S3Env) (data : String × String) (meta : String)
    (h : env.head_object data.2 = Except.ok meta) :
    migrate_data env true data = ((false, Payload.mapping data), [S3Event.head data.2]) ∧
    (∀ u, S3Event.getUrl u ∉ (migrate_data env true data).2) ∧
    (∀ k, S3Event.put k ∉ (migrate_data env true data).2) := by
  have hmain : migrate_data env true data =
      ((false, Payload.mapping data), [S3Event.head data.2]) := by
    simp [migrate_data, h]
  refine ⟨hmain, ?_, ?_⟩
  · intro u
    rw [hmain]
    simp
  · intro k
    rw [hmain]
    simp

/-- C6 witness: the skip at a concrete mapping under an oracle whose probe
always finds the object. -/
theorem claimC6_resume_skip_witness :
    migrate_data envHeadOk true ("https://h/a", "a") =
      ((false, Payload.mapping ("https://h/a", "a")), [S3Event.head "a"]) :=
  (claimC6_resume_skip envHeadOk ("https://h/a", "a") "meta" rfl).1

/-- C7: the Folder Filter returns exactly the set of input URLs containing
at least one of the comma-separated (and stripped) filter substrings: the
output has no duplicates, and a URL is in the output iff it is an input URL
having some stripped piece of the filter string as a contiguous substring. -/
theorem claimC7_folder_filter_set (source_buckets : String) (url_list : List String) :
    (filter_urls_base_on_folder_names source_buckets url_list).Nodup ∧
    ∀ u : String, u ∈ filter_urls_base_on_folder_names source_buckets url_list ↔
      u ∈ url_list ∧ ∃ l ∈ pySplit ',' source_buckets.data,
        ∃ a b, u.data = a ++ (pyStripWS (String.mk l)).data ++ b := by
  constructor
  · exact List.nodup_dedup _
  · intro u
    simp only [filter_urls_base_on_folder_names, List.mem_dedup, List.mem_flatten,
      List.mem_map]
    constructor
    · rintro ⟨L, ⟨sb, ⟨l, hl, rfl⟩, rfl⟩, hu⟩
      rw [List.mem_filter] at hu
      obtain ⟨hu1, hu2⟩ := hu
      obtain ⟨a, b, hab⟩ := (pyIn_iff _ _).mp hu2
      exact ⟨hu1, l, hl, a, b, hab⟩
    · rintro ⟨hu, l, hl, a, b, hab⟩
      refine ⟨_, ⟨pyStripWS (String.mk l), ⟨l, hl, rfl⟩, rfl⟩, ?_⟩
      rw [List.mem_filter]
      exact ⟨hu, (pyIn_iff _ _).mpr ⟨a, b, hab⟩⟩

/-- C7 witness: the spec's concrete filtering example. -/
theorem claimC7_folder_filter_set_witness :
    (filter_urls_base_on_folder_names "/samples/rats"
      ["https://h/a/samples/rats/a.jpg", "https://h/a/samples/birds/b.jpg"]).Nodup ∧
    filter_urls_base_on_folder_names "/samples/rats"
      ["https://h/a/samples/rats/a.jpg", "https://h/a/samples/birds/b.jpg"] =
      ["https://h/a/samples/rats/a.jpg"] :=
  ⟨(claimC7_folder_filter_set "/samples/rats"
      ["https://h/a/samples/rats/a.jpg", "https://h/a/samples/birds/b.jpg"]).1, by decide⟩

/-- C8: with structure-preservation enabled the target key is the URL with
its first three slash-delimited segments removed (`"/".join(url.split("/")[3:])`);
the mapper is a pure total Lean function, so determinism and totality are
inherent.  Stated for any URL of the form `s1/s2/s3/rest` with slash-free
first three segments. -/
theorem claimC8_keep_structure (s1 s2 s3 rest : List Char)
    (h1 : '/' ∉ s1) (h2 : '/' ∉ s2) (h3 : '/' ∉ s3) :
    source_to_target_mapper [String.mk (s1 ++ '/' :: (s2 ++ '/' :: (s3 ++ '/' :: rest)))]
        true "" =
      [(String.mk (s1 ++ '/' :: (s2 ++ '/' :: (s3 ++ '/' :: rest))), String.mk rest)] := by
  have hkey : ∀ url : String, source_to_target_mapper [url] true "" =
      [(url, String.mk (pyJoin '/' ((pySplit '/' url.data).drop 3)))] := fun _ => rfl
  rw [hkey]
  have hdata : (String.mk (s1 ++ '/' :: (s2 ++ '/' :: (s3 ++ '/' :: rest)))).data
      = s1 ++ '/' :: (s2 ++ '/' :: (s3 ++ '/' :: rest)) := rfl
  rw [hdata, pySplit_append '/' s1 _ h1, pySplit_append '/' s2 _ h2,
    pySplit_append '/' s3 _ h3]
  simp [pyJoin_pySplit]

/-- C8 witness: the spec's example URL under structure preservation. -/
theorem claimC8_keep_structure_witness :
    source_to_target_mapper [String.mk ("https:".data ++ '/' :: (([] : List Char) ++ '/' ::
        ("res.example.com".data ++ '/' :: "demo/image/upload/v123/samples/cat.jpg".data)))]
        true "" =
      [(String.mk ("https:".data ++ '/' :: (([] : List Char) ++ '/' ::
        ("res.example.com".data ++ '/' :: "demo/image/upload/v123/samples/cat.jpg".data))),
        String.mk "demo/image/upload/v123/samples/cat.jpg".data)] :=
  claimC8_keep_structure "https:".data [] "res.example.com".data
    "demo/image/upload/v123/samples/cat.jpg".data (by decide) (by decide) (by decide)

/-- C9: for every non-empty parent-path prefix, every URL list and either
structure mode, the mapper's keys are exactly the keys of the prefix-less
run with `strip(parent, "/") ++ "/"` prepended, and the stripped prefix
neither starts nor ends with a slash — so the single inserted `/` is the
only slash the prefix handling contributes, whatever leading or trailing
slashes the given prefix has. -/
theorem claimC9_parent_prefix (url_list : List String) (keep : Bool) (parent_path : String)
    (h : parent_path ≠ "") :
    source_to_target_mapper url_list keep parent_path =
      (source_to_target_mapper url_list keep "").map
        (fun p => (p.1, pyStripSlash parent_path ++ "/" ++ p.2)) ∧
    (pyStripSlash parent_path).data.head? ≠ some '/' ∧
    (pyStripSlash parent_path).data.getLast? ≠ some '/' := by
  refine ⟨?_, ?_, ?_⟩
  · unfold source_to_target_mapper
    rw [List.map_map]
    apply List.map_congr_left
    intro url _
    simp [h]
  · intro hh
    have hc := pyStripChars_head? (fun c => decide (c = '/')) parent_path.data '/' hh
    simp at hc
  · intro hh
    have hc := pyStripChars_getLast? (fun c => decide (c = '/')) parent_path.data '/' hh
    simp at hc

/-- C9 witness: the spec's example with parent path `/backup/`. -/
theorem claimC9_parent_prefix_witness :
    source_to_target_mapper ["https://res.example.com/demo/image/upload/v123/samples/cat.jpg"]
        false "/backup/" =
      (source_to_target_mapper
        ["https://res.example.com/demo/image/upload/v123/samples/cat.jpg"] false "").map
        (fun p => (p.1, pyStripSlash "/backup/" ++ "/" ++ p.2)) ∧
    (pyStripSlash "/backup/").data.head? ≠ some '/' ∧
    (pyStripSlash "/backup/").data.getLast? ≠ some '/' :=
  claimC9_parent_prefix ["https://res.example.com/demo/image/upload/v123/samples/cat.jpg"]
    false "/backup/" (by decide)

/-- C10: with resuming enabled, a failed metadata probe (`head_object`
raising) is treated as object-absent: the worker's result is exactly the
result of the plain fetch-and-upload path, with only the extra HEAD call in
front — in particular the probe failure itself never produces a failure
record. -/
theorem claimC10_head_error_fallthrough (env : S3Env) (data : String × String) (e : String)
    (h : env.head_object data.2 = Except.error e) :
    migrate_data env true data =
      ((migrate_data env false data).1,
        S3Event.head data.2 :: (migrate_data env false data).2) := by
  simp only [migrate_data, h]
  cases hget : env.get data.1 with
  | error err => simp [hget]
  | ok content => cases hput : env.put_object data.2 content <;> simp [hget, hput]

/-- C10 witness: the fall-through at a concrete mapping under an oracle
whose probe always raises. -/
theorem claimC10_head_error_fallthrough_witness :
    migrate_data envFailA true ("https://h/b", "b") =
      ((migrate_data envFailA false ("https://h/b", "b")).1,
        S3Event.head "b" :: (migrate_data envFailA false ("https://h/b", "b")).2) :=
  claimC10_head_error_fallthrough envFailA ("https://h/b", "b") "404" rfl

end StorageMigration
